import Mathlib

/-!
Verification of the capture-and-redact payload pipeline of the `actix-treblle`
middleware.  The Rust sources embedded here are `src/payload.rs` (field
masking, elapsed-time formatting), `src/middleware.rs` (request-body capture
and the route-skip decision) and `src/extractors.rs` (response-body capture
and error descriptors).

Modelling conventions:
* Rust `String` values are embedded as `List Char` (`Str` below).  Rust's
  `to_lowercase` is modelled by mapping `Char.toLower` over the characters,
  which agrees with it on ASCII data such as the header names compared here.
* `serde_json::Value` is embedded as the nested inductive `Json`; object maps
  become association lists, preserving entry order.  The numeric payload of a
  JSON number is irrelevant to every function embedded here, so numbers carry
  an `Int`.
* External library functions that the code merely calls through
  (`serde_json::from_slice`, `String::from_utf8`) are abstracted as function
  parameters of the embedded decoders; the `Debug` byte rendering of the
  `bytes` crate is embedded concretely as `bytesDebug`.
-/

abbrev Str := List Char

/-- Model of Rust `str::to_lowercase` (exact on ASCII input). -/
def lowerStr (s : Str) : Str := s.map Char.toLower

/-- The fixed mask token `"******"` used for redacted values. -/
def maskStr : Str := ('*' :: '*' :: '*' :: '*' :: '*' :: '*' :: [])

/-- The header name compared case-insensitively in `clear_hashmap`. -/
def authKey : Str := ("authorization".toList)

/-- The content-type string the request-body gate compares against. -/
def appJson : Str := ("application/json".toList)

/-- Embedding of `serde_json::Value` as a nested inductive. -/
inductive Json where
  | null
  | jbool (b : Bool)
  | num (n : Int)
  | str (s : Str)
  | arr (elems : List Json)
  | obj (fields : List (Str × Json))

mutual

/-- Embedding of `clear_value` (payload.rs:205): only an object root is
redacted, any other root value is left as it is. -/
def clear_value (fields : List Str) : Json → Json
  | .obj m => .obj (clear_map fields m)
  | v => v

/-- Embedding of `clear_map` (payload.rs:212): the loop over the entries of an
object, rewriting each value with `clear_entry` and leaving keys in place. -/
def clear_map (fields : List Str) : List (Str × Json) → List (Str × Json)
  | [] => []
  | (k, v) :: rest => (k, clear_entry fields k v) :: clear_map fields rest

/-- The body of the loop in `clear_map` (payload.rs:213-233), factored per
entry: object values are recursed into (whatever the key), a string value
under a matching key becomes the mask token, and every other value under a
matching key becomes null.  The last four arms together are the `_` arm of
the Rust `match`, written out per constructor. -/
def clear_entry (fields : List Str) (k : Str) : Json → Json
  | .obj m => .obj (clear_map fields m)
  | .str s => if fields.contains k then .str maskStr else .str s
  | .null => if fields.contains k then .null else .null
  | .jbool b => if fields.contains k then .null else .jbool b
  | .num n => if fields.contains k then .null else .num n
  | .arr xs => if fields.contains k then .null else .arr xs

end

/-- Embedding of Rust `value.split(' ')` (an empty string yields one empty
token, adjacent separators yield empty tokens in between). -/
def splitSp : Str → List Str
  | [] => [[]]
  | c :: rest =>
    match splitSp rest with
    | [] => [[]]
    | t :: ts => if c = ' ' then [] :: t :: ts else (c :: t) :: ts

/-- The authorization arm of `clear_hashmap` (payload.rs:239-241):
`format!("{} {}", v.get(0).unwrap_or(&""), "******")` where `v` is the
space-split of the header value. -/
def auth_mask (v : Str) : Str := ((splitSp v).headD []) ++ ' ' :: maskStr

/-- The body of the loop in `clear_hashmap` (payload.rs:238-245), factored per
entry: a key that case-insensitively equals `"authorization"` keeps only its
first space-separated token followed by the mask token; any other key in the
sensitive set has its value replaced by the mask token. -/
def clear_header_value (fields : List Str) (k v : Str) : Str :=
  if lowerStr k = authKey then auth_mask v
  else if fields.contains k then maskStr
  else v

/-- Embedding of `clear_hashmap` (payload.rs:237): the value of every entry is
rewritten in place, keys are never touched. -/
def clear_hashmap (fields : List Str) (m : List (Str × Str)) : List (Str × Str) :=
  m.map (fun p => (p.1, clear_header_value fields p.1 p.2))

/-- The request half of `TreblleData` restricted to the fields `mask_fields`
reads or writes (payload.rs:19-27; the scalar metadata fields are never
touched by masking and are omitted). -/
structure TreblleRequestData where
  headers : List (Str × Str)
  body : Option Json

/-- The response half of `TreblleData` restricted to the fields `mask_fields`
reads or writes (payload.rs:10-16). -/
structure TreblleResponseData where
  headers : List (Str × Str)
  body : Option Json

/-- The payload record, restricted to the parts `mask_fields` operates on. -/
structure TreblleData where
  request : TreblleRequestData
  response : TreblleResponseData

/-- Embedding of `TreblleData::mask_fields` (payload.rs:148-165): both bodies
are redacted with `clear_value` (when present) and both header maps with
`clear_hashmap`. -/
def mask_fields (fields : List Str) (d : TreblleData) : TreblleData :=
  ⟨⟨clear_hashmap fields d.request.headers,
    d.request.body.map (fun value => clear_value fields value)⟩,
   ⟨clear_hashmap fields d.response.headers,
    d.response.body.map (fun value => clear_value fields value)⟩⟩

/-- The observable steps of `TreblleMiddleware::call` (middleware.rs:66-105)
in source order: allocating the exchange record (`TreblleData::new`), calling
the wrapped service, masking, and handing the record to the dispatcher
(`send` / `send_debug`). -/
inductive MiddlewareStep where
  | newData
  | innerCall
  | maskData
  | dispatch
deriving DecidableEq

/-- Embedding of the control flow of `TreblleMiddleware::call`
(middleware.rs:66-105) as the sequence of steps it performs: when the matched
route pattern (defaulting to the empty string) is in `ignored_routes` the
middleware only forwards to the inner service; otherwise it allocates a
record, forwards, masks and dispatches. -/
def middleware_call (ignored_routes : List Str) (match_pattern : Option Str) :
    List MiddlewareStep :=
  let skip_treblle := ignored_routes.contains (match_pattern.getD [])
  if skip_treblle then [.innerCall]
  else [.newData, .innerCall, .maskData, .dispatch]

/-- Whether `pat` stands at the head of the second list. -/
def leadsWith : Str → Str → Bool
  | [], _ => true
  | _ :: _, [] => false
  | p :: ps, c :: cs => p == c && leadsWith ps cs

/-- The head element of Rust `s.split(pat)` for a non-empty string pattern:
the part of `s` before the first occurrence of `pat`, or all of `s` when the
pattern does not occur. -/
def upToPat (pat : Str) : Str → Str
  | [] => []
  | c :: rest => if leadsWith pat (c :: rest) then [] else c :: upToPat pat rest

/-- The `type` computation of `Extractor::get_errors` (extractors.rs:56-65):
the debug message cut at the first `'('` and then at the first occurrence of
the three-character sequence `" \x7b\x7b"`. -/
def errType (message : Str) : Str :=
  upToPat (" \x7b\x7b".toList) (upToPat ([ '(' ]) message)

/-- Embedding of `Extractor::get_errors` (extractors.rs:51-75).  The response
error is modelled by its debug text (`format!("\x7b:?\x7d", e)`), `none`
standing for a response that carries no error. -/
def get_errors (err : Option Str) : List Json :=
  match err with
  | none => []
  | some message =>
    [ .obj [ (("source".toList), .str ("onError".toList)),
             (("message".toList), .str message),
             (("type".toList), .str (errType message)) ] ]

/-- One hexadecimal digit, as used by the `\x` escapes of the byte debug
rendering. -/
def hexCh (n : Nat) : Char :=
  if n = 0 then '0' else if n = 1 then '1' else if n = 2 then '2'
  else if n = 3 then '3' else if n = 4 then '4' else if n = 5 then '5'
  else if n = 6 then '6' else if n = 7 then '7' else if n = 8 then '8'
  else if n = 9 then '9' else if n = 10 then 'a' else if n = 11 then 'b'
  else if n = 12 then 'c' else if n = 13 then 'd' else if n = 14 then 'e'
  else 'f'

/-- Escaping of one byte in the `Debug` rendering of the `bytes` crate:
named escapes for newline, carriage return, tab, backslash, quote and NUL,
printable ASCII verbatim, and `\xNN` for everything else. -/
def byteEscape (b : Nat) : Str :=
  if b = 10 then ('\\' :: 'n' :: [])
  else if b = 13 then ('\\' :: 'r' :: [])
  else if b = 9 then ('\\' :: 't' :: [])
  else if b = 92 then ('\\' :: '\\' :: [])
  else if b = 34 then ('\\' :: '"' :: [])
  else if b = 0 then ('\\' :: '0' :: [])
  else if 32 ≤ b ∧ b < 127 then [Char.ofNat b]
  else ('\\' :: 'x' :: hexCh (b / 16 % 16) :: hexCh (b % 16) :: [])

/-- Model of `format!("\x7b:?\x7d", bytes)` on an actix `Bytes` buffer: the
`Debug` rendering `b"..."` of the `bytes` crate. -/
def bytesDebug (bs : List Nat) : Str :=
  'b' :: '"' :: ((bs.map byteEscape).flatten ++ ('"' :: []))

/-- Embedding of `get_request_body` (middleware.rs:111-168).  `parseJson`
abstracts `serde_json::from_slice` and `utf8Decode` abstracts
`String::from_utf8`; `contentType` is the extracted `content-type` header
value (missing or undecodable headers having degraded to the empty string
upstream), which the code lowercases before the gate. -/
def get_request_body (parseJson : List Nat → Option Json)
    (utf8Decode : List Nat → Option Str) (contentType : Str)
    (bytes : List Nat) : Json :=
  if lowerStr contentType ≠ appJson then .null
  else if bytes = [] then .null
  else
    match parseJson bytes with
    | some v => v
    | none =>
      match utf8Decode bytes with
      | some s => .obj [ (("request_as_a_string".toList), .str s) ]
      | none => .obj [ (("request_as_raw_bytes".toList), .str (bytesDebug bytes)) ]

/-- Embedding of `Extractor::get_response_body` (extractors.rs:124-156) on the
captured bytes; `none` models a response body whose bytes could not be taken
(`try_into_bytes` failing), in which case the body is logged as null.  No
content-type gate appears here, matching the source. -/
def get_response_body (parseJson : List Nat → Option Json)
    (utf8Decode : List Nat → Option Str) (bytes : Option (List Nat)) : Json :=
  match bytes with
  | none => .null
  | some b =>
    if b = [] then .null
    else
      match parseJson b with
      | some v => v
      | none =>
        match utf8Decode b with
        | some s => .str s
        | none => .str (bytesDebug b)

/-- A UTC timestamp as `chrono` exposes it to `get_seconds_with_micro`:
whole seconds (`timestamp()`) and the microseconds of the current second
(`timestamp_subsec_micros()`, in `0..1000000`). -/
structure Instant where
  sec : Int
  micro : Nat

/-- The timestamp as a single integer count of microseconds.  The source
forms `timestamp() + timestamp_subsec_micros()/1e6` in `f64`; this is that
quantity scaled by `1e6`, computed exactly. -/
def microsOf (t : Instant) : Int := t.sec * 1000000 + t.micro

/-- One decimal digit character. -/
def digCh (n : Nat) : Char :=
  if n = 0 then '0' else if n = 1 then '1' else if n = 2 then '2'
  else if n = 3 then '3' else if n = 4 then '4' else if n = 5 then '5'
  else if n = 6 then '6' else if n = 7 then '7' else if n = 8 then '8'
  else '9'

/-- Decimal rendering of a natural number, fuelled so that it reduces by
evaluation; `natRepr` supplies enough fuel. -/
def natReprAux : Nat → Nat → Str
  | 0, _ => []
  | fuel + 1, n =>
    if n < 10 then [digCh n] else natReprAux fuel (n / 10) ++ [digCh (n % 10)]

/-- Decimal rendering of a natural number. -/
def natRepr (n : Nat) : Str := natReprAux (n + 1) n

/-- Left-pad a digit string with zeros to width five. -/
def padFive (s : Str) : Str := List.replicate (5 - s.length) '0' ++ s

/-- Rounding of a microsecond count to tens of microseconds (the fifth
decimal of the printed seconds), half away from zero. -/
def roundTen (k : Nat) : Nat := (k + 5) / 10

/-- Rendering of a non-negative microsecond count as seconds with exactly
five decimal places, the exact-arithmetic counterpart of
`format!("\x7b:.5\x7d", duration)` in the source. -/
def fiveDecRender (k : Nat) : Str :=
  natRepr (roundTen k / 100000) ++ '.' :: padFive (natRepr (roundTen k % 100000))

/-- Embedding of `get_seconds_with_micro` (payload.rs:250-263).  The source
converts both timestamps to `f64` seconds (whole seconds plus
`subsec_micros/1e6`), subtracts, and prints the difference with five decimal
places; here the same difference is computed exactly in integer microseconds
and printed with the same five-decimal format.  For every duration the fifth
decimal can resolve, and in particular for all properties stated below, the
`f64` evaluation agrees with this exact one.  `endTime = none` models the
`end.unwrap_or_else(Utc::now)` default, with `now` the current time. -/
def get_seconds_with_micro (now : Instant) (start : Instant)
    (endTime : Option Instant) : Str :=
  let e := endTime.getD now
  let durationMicros : Int := microsOf e - microsOf start
  if durationMicros < 0 then '-' :: fiveDecRender (-durationMicros).toNat
  else fiveDecRender durationMicros.toNat

/-- Per-entry statement of the masked-state invariant: a key in the sensitive
set may only hold the mask token (for strings), null, or an object (whose own
entries are constrained recursively by `maskedOkV`). -/
def maskedEntry (fields : List Str) (k : Str) : Json → Bool
  | .str s => !(fields.contains k) || (s == maskStr)
  | .null => true
  | .obj _ => true
  | _ => !(fields.contains k)

mutual

/-- The masked-state invariant over a value: every object entry, at every
nesting depth reachable through objects, satisfies `maskedEntry`. -/
def maskedOkV (fields : List Str) : Json → Bool
  | .obj l => maskedOkL fields l
  | _ => true

/-- The masked-state invariant over the entries of one object. -/
def maskedOkL (fields : List Str) : List (Str × Json) → Bool
  | [] => true
  | (k, v) :: rest => maskedEntry fields k v && maskedOkV fields v && maskedOkL fields rest

end

mutual

/-- Key-frame relation: wherever the first value has an object (at the root
or nested through objects), the second has an object with the same keys in
the same order. -/
def sameKeysV : Json → Json → Bool
  | .obj l, .obj l' => sameKeysL l l'
  | .obj _, _ => false
  | .null, _ => true
  | .jbool _, _ => true
  | .num _, _ => true
  | .str _, _ => true
  | .arr _, _ => true

/-- Key-frame relation on object entry lists: pointwise equal keys and
`sameKeysV`-related values. -/
def sameKeysL : List (Str × Json) → List (Str × Json) → Bool
  | [], [] => true
  | (k, v) :: r, (k', v') :: r' => (k = k' : Bool) && sameKeysV v v' && sameKeysL r r'
  | _, _ => false

end

mutual

/-- No key of the sensitive set occurs in the value, at any nesting depth
reachable through objects (array contents are not inspected, matching the
redactor's reach). -/
def cleanV (fields : List Str) : Json → Bool
  | .obj l => cleanL fields l
  | _ => true

/-- `cleanV` over the entries of one object. -/
def cleanL (fields : List Str) : List (Str × Json) → Bool
  | [] => true
  | (k, v) :: rest => !(fields.contains k) && cleanV fields v && cleanL fields rest

end

theorem splitSp_ne_nil (v : Str) : splitSp v ≠ [] := by
  cases v with
  | nil => simp [splitSp]
  | cons c rest =>
    simp only [splitSp]
    cases h : splitSp rest with
    | nil => simp
    | cons t ts => by_cases hc : c = ' ' <;> simp [hc]

theorem splitSp_headD (v : Str) :
    (splitSp v).headD [] = v.takeWhile (fun c => !(c == ' ')) := by
  induction v with
  | nil => simp [splitSp]
  | cons c rest ih =>
    simp only [splitSp]
    cases h : splitSp rest with
    | nil => exact absurd h (splitSp_ne_nil rest)
    | cons t ts =>
      rw [h] at ih
      rw [List.takeWhile_cons]
      by_cases hc : c = ' '
      · have hb : (c == ' ') = true := by simp [hc]
        simp [hc, hb]
      · have hb : (c == ' ') = false := by simp [hc]
        simp only [hb, Bool.not_false, if_pos]
        simpa [hc] using ih

theorem takeWhile_no_space (v : Str) :
    ' ' ∉ v.takeWhile (fun c => !(c == ' ')) := by
  intro h
  have := List.mem_takeWhile_imp h
  simp at this

theorem takeWhile_append_space (t rest : Str) (h : ' ' ∉ t) :
    (t ++ ' ' :: rest).takeWhile (fun c => !(c == ' ')) = t := by
  induction t with
  | nil => simp [List.takeWhile]
  | cons c t' ih =>
    have hc : c ≠ ' ' := fun hc => h (hc ▸ List.mem_cons_self c t')
    have h' : ' ' ∉ t' := fun hm => h (List.mem_cons_of_mem c hm)
    have hb : (c == ' ') = false := by simp [hc]
    rw [List.cons_append, List.takeWhile_cons]
    simp only [hb, Bool.not_false, if_pos]
    rw [ih h']

theorem auth_mask_eq_takeWhile (v : Str) :
    auth_mask v = v.takeWhile (fun c => !(c == ' ')) ++ ' ' :: maskStr :=
  congrArg (fun t => t ++ ' ' :: maskStr) (splitSp_headD v)

theorem auth_mask_idem (v : Str) : auth_mask (auth_mask v) = auth_mask v := by
  rw [auth_mask_eq_takeWhile v, auth_mask_eq_takeWhile,
    takeWhile_append_space _ _ (takeWhile_no_space v)]

theorem clear_header_value_idem (F : List Str) (k v : Str) :
    clear_header_value F k (clear_header_value F k v) = clear_header_value F k v := by
  by_cases ha : lowerStr k = authKey
  · simp [clear_header_value, ha, auth_mask_idem]
  · by_cases hf : k ∈ F <;> simp [clear_header_value, ha, hf]

theorem clear_hashmap_idem (F : List Str) (hs : List (Str × Str)) :
    clear_hashmap F (clear_hashmap F hs) = clear_hashmap F hs := by
  simp [clear_hashmap, List.map_map, Function.comp, clear_header_value_idem]

mutual

theorem clear_value_idem (F : List Str) (v : Json) :
    clear_value F (clear_value F v) = clear_value F v := by
  cases v <;> simp [clear_value, clear_map_idem]

theorem clear_map_idem (F : List Str) (l : List (Str × Json)) :
    clear_map F (clear_map F l) = clear_map F l := by
  cases l with
  | nil => rfl
  | cons p rest =>
    obtain ⟨k, v⟩ := p
    simp [clear_map, clear_entry_idem, clear_map_idem]

theorem clear_entry_idem (F : List Str) (k : Str) (v : Json) :
    clear_entry F k (clear_entry F k v) = clear_entry F k v := by
  cases v with
  | obj m => simp [clear_entry, clear_map_idem]
  | str s => by_cases h : k ∈ F <;> simp [clear_entry, h]
  | null => by_cases h : k ∈ F <;> simp [clear_entry, h]
  | jbool b => by_cases h : k ∈ F <;> simp [clear_entry, h]
  | num n => by_cases h : k ∈ F <;> simp [clear_entry, h]
  | arr xs => by_cases h : k ∈ F <;> simp [clear_entry, h]

end

theorem clear_map_eq_map (F : List Str) (l : List (Str × Json)) :
    clear_map F l = l.map (fun p => (p.1, clear_entry F p.1 p.2)) := by
  induction l with
  | nil => rfl
  | cons p rest ih =>
    obtain ⟨k, v⟩ := p
    simp [clear_map, ih]

theorem clear_map_keys (F : List Str) (l : List (Str × Json)) :
    (clear_map F l).map Prod.fst = l.map Prod.fst := by
  simp [clear_map_eq_map, List.map_map, Function.comp]

theorem clear_hashmap_keys (F : List Str) (hs : List (Str × Str)) :
    (clear_hashmap F hs).map Prod.fst = hs.map Prod.fst := by
  simp [clear_hashmap, List.map_map, Function.comp]

mutual

theorem maskedOkV_clear_value (F : List Str) (v : Json) :
    maskedOkV F (clear_value F v) = true := by
  cases v <;> simp [clear_value, maskedOkV, maskedOkL_clear_map]

theorem maskedOkL_clear_map (F : List Str) (l : List (Str × Json)) :
    maskedOkL F (clear_map F l) = true := by
  cases l with
  | nil => rfl
  | cons p rest =>
    obtain ⟨k, v⟩ := p
    simp only [clear_map, maskedOkL, Bool.and_eq_true]
    exact ⟨⟨maskedEntry_clear_entry F k v, maskedOkV_clear_entry F k v⟩,
      maskedOkL_clear_map F rest⟩

theorem maskedOkV_clear_entry (F : List Str) (k : Str) (v : Json) :
    maskedOkV F (clear_entry F k v) = true := by
  cases v with
  | obj m => simp [clear_entry, maskedOkV, maskedOkL_clear_map]
  | str s => by_cases h : k ∈ F <;> simp [clear_entry, h, maskedOkV]
  | null => by_cases h : k ∈ F <;> simp [clear_entry, h, maskedOkV]
  | jbool b => by_cases h : k ∈ F <;> simp [clear_entry, h, maskedOkV]
  | num n => by_cases h : k ∈ F <;> simp [clear_entry, h, maskedOkV]
  | arr xs => by_cases h : k ∈ F <;> simp [clear_entry, h, maskedOkV]

theorem maskedEntry_clear_entry (F : List Str) (k : Str) (v : Json) :
    maskedEntry F k (clear_entry F k v) = true := by
  cases v with
  | obj m => simp [clear_entry, maskedEntry]
  | str s => by_cases h : k ∈ F <;> simp [clear_entry, h, maskedEntry]
  | null => by_cases h : k ∈ F <;> simp [clear_entry, h, maskedEntry]
  | jbool b => by_cases h : k ∈ F <;> simp [clear_entry, h, maskedEntry]
  | num n => by_cases h : k ∈ F <;> simp [clear_entry, h, maskedEntry]
  | arr xs => by_cases h : k ∈ F <;> simp [clear_entry, h, maskedEntry]

end

mutual

theorem sameKeysV_clear_value (F : List Str) (v : Json) :
    sameKeysV v (clear_value F v) = true := by
  cases v <;> simp [clear_value, sameKeysV, sameKeysL_clear_map]

theorem sameKeysL_clear_map (F : List Str) (l : List (Str × Json)) :
    sameKeysL l (clear_map F l) = true := by
  cases l with
  | nil => rfl
  | cons p rest =>
    obtain ⟨k, v⟩ := p
    simp only [clear_map, sameKeysL, Bool.and_eq_true]
    exact ⟨⟨by simp, sameKeysV_clear_entry F k v⟩, sameKeysL_clear_map F rest⟩

theorem sameKeysV_clear_entry (F : List Str) (k : Str) (v : Json) :
    sameKeysV v (clear_entry F k v) = true := by
  cases v with
  | obj m => simp [clear_entry, sameKeysV, sameKeysL_clear_map]
  | str s => by_cases h : k ∈ F <;> simp [clear_entry, h, sameKeysV]
  | null => by_cases h : k ∈ F <;> simp [clear_entry, h, sameKeysV]
  | jbool b => by_cases h : k ∈ F <;> simp [clear_entry, h, sameKeysV]
  | num n => by_cases h : k ∈ F <;> simp [clear_entry, h, sameKeysV]
  | arr xs => by_cases h : k ∈ F <;> simp [clear_entry, h, sameKeysV]

end

mutual

theorem clear_value_of_cleanV (F : List Str) (v : Json) (h : cleanV F v = true) :
    clear_value F v = v := by
  cases v with
  | obj l =>
    simp only [cleanV] at h
    simp [clear_value, clear_map_of_cleanL F l h]
  | null => rfl
  | jbool b => rfl
  | num n => rfl
  | str s => rfl
  | arr xs => rfl

theorem clear_map_of_cleanL (F : List Str) (l : List (Str × Json))
    (h : cleanL F l = true) : clear_map F l = l := by
  cases l with
  | nil => rfl
  | cons p rest =>
    obtain ⟨k, v⟩ := p
    simp only [cleanL, Bool.and_eq_true, Bool.not_eq_true'] at h
    obtain ⟨⟨hk, hv⟩, hrest⟩ := h
    simp only [clear_map, clear_map_of_cleanL F rest hrest]
    rw [clear_entry_of_clean F k v hk hv]

theorem clear_entry_of_clean (F : List Str) (k : Str) (v : Json)
    (hk : F.contains k = false) (hv : cleanV F v = true) : clear_entry F k v = v := by
  cases v with
  | obj m =>
    simp only [cleanV] at hv
    simp [clear_entry, clear_map_of_cleanL F m hv]
  | str s => have hk' : ¬ k ∈ F := by simpa using hk
             simp [clear_entry, hk']
  | null => simp [clear_entry, hk]
  | jbool b => have hk' : ¬ k ∈ F := by simpa using hk
               simp [clear_entry, hk']
  | num n => have hk' : ¬ k ∈ F := by simpa using hk
             simp [clear_entry, hk']
  | arr xs => have hk' : ¬ k ∈ F := by simpa using hk
              simp [clear_entry, hk']

end

/-- Claim C1, counterexample.  The claim states that a matching key whose
value is not a string — including an object — has its value replaced by null.
In the code the object arm of the `match` in `clear_map` precedes the
catch-all arm, so a matching key with an object value is recursed into
instead: redacting `{"ccv": {"x": 5}}` with sensitive set `["ccv"]` leaves
the record unchanged and the value of `"ccv"` is not null. -/
theorem claim1_object_value_counterexample :
    clear_value [("ccv".toList)]
        (Json.obj [(("ccv".toList), Json.obj [(("x".toList), Json.num 5)])])
      = Json.obj [(("ccv".toList), Json.obj [(("x".toList), Json.num 5)])] ∧
    List.contains [("ccv".toList)] ("ccv".toList) = true ∧
    Json.obj [(("x".toList), Json.num 5)] ≠ Json.null := by
  refine ⟨rfl, rfl, ?_⟩
  intro h
  exact Json.noConfusion h

/-- Claim C1 as amended: tree redaction replaces the value of each object key
matching the sensitive set as follows — a string value becomes the mask token
`"******"`; a number, bool, null or array value becomes null; an object value
is recursed into (for matching and non-matching keys alike), and arrays are
never descended into; entries with non-matching keys and non-object values
are untouched, keys stay in place. -/
theorem claim1_redaction_cases (F : List Str) (k : Str) (s : Str) (n : Int)
    (b : Bool) (xs : List Json) (m : List (Str × Json)) (l : List (Str × Json)) :
    (F.contains k = true → clear_entry F k (.str s) = .str maskStr) ∧
    (F.contains k = true → clear_entry F k (.num n) = .null) ∧
    (F.contains k = true → clear_entry F k (.jbool b) = .null) ∧
    (F.contains k = true → clear_entry F k .null = .null) ∧
    (F.contains k = true → clear_entry F k (.arr xs) = .null) ∧
    (clear_entry F k (.obj m) = .obj (clear_map F m)) ∧
    (F.contains k = false → clear_entry F k (.str s) = .str s) ∧
    (F.contains k = false → clear_entry F k (.num n) = .num n) ∧
    (F.contains k = false → clear_entry F k (.jbool b) = .jbool b) ∧
    (F.contains k = false → clear_entry F k (.arr xs) = .arr xs) ∧
    (clear_map F l = l.map (fun p => (p.1, clear_entry F p.1 p.2))) ∧
    (clear_value F (.obj m) = .obj (clear_map F m)) ∧
    (clear_value F (.arr xs) = .arr xs) := by
  refine ⟨?_, ?_, ?_, ?_, ?_, by simp [clear_entry], ?_, ?_, ?_, ?_,
    clear_map_eq_map F l, by simp [clear_value], by simp [clear_value]⟩ <;>
    intro h <;>
    first
      | (have h' : k ∈ F := by simpa using h
         simp [clear_entry, h'])
      | (have h' : ¬ k ∈ F := by simpa using h
         simp [clear_entry, h'])

/-- Claim C1 witness: the amended redaction rules evaluated on concrete
entries, both for a key in the sensitive set and for one outside it. -/
theorem claim1_redaction_cases_witness :
    clear_entry [("pwd".toList)] ("pwd".toList) (Json.str ("secret1".toList))
        = Json.str maskStr ∧
    clear_entry [("pwd".toList)] ("pwd".toList) (Json.num 7) = Json.null ∧
    clear_entry [("pwd".toList)] ("pwd".toList) (Json.arr [Json.num 1]) = Json.null ∧
    clear_entry [("pwd".toList)] ("name".toList) (Json.str ("Al".toList))
        = Json.str ("Al".toList) :=
  ⟨(claim1_redaction_cases [("pwd".toList)] ("pwd".toList) ("secret1".toList) 7
      true [Json.num 1] [] []).1 (by decide),
   (claim1_redaction_cases [("pwd".toList)] ("pwd".toList) ("secret1".toList) 7
      true [Json.num 1] [] []).2.1 (by decide),
   (claim1_redaction_cases [("pwd".toList)] ("pwd".toList) ("secret1".toList) 7
      true [Json.num 1] [] []).2.2.2.2.1 (by decide),
   (claim1_redaction_cases [("pwd".toList)] ("name".toList) ("Al".toList) 7
      true [Json.num 1] [] []).2.2.2.2.2.2.1 (by decide)⟩

/-- Claim C2, counterexample.  A key in the sensitive set whose value is an
object keeps its original value whenever that object contains no sensitive
keys itself: masking `{"password": {"a": "b"}}` with sensitive set
`["password"]` changes nothing, so the matching field retains its original
value, which is neither the mask token nor null. -/
theorem claim2_retained_value_counterexample :
    clear_value [("password".toList)]
        (Json.obj [(("password".toList), Json.obj [(("a".toList), Json.str ("b".toList))])])
      = Json.obj [(("password".toList), Json.obj [(("a".toList), Json.str ("b".toList))])] ∧
    List.contains [("password".toList)] ("password".toList) = true ∧
    Json.obj [(("a".toList), Json.str ("b".toList))] ≠ Json.str maskStr ∧
    Json.obj [(("a".toList), Json.str ("b".toList))] ≠ Json.null := by
  refine ⟨rfl, rfl, ?_, ?_⟩ <;> exact fun h => Json.noConfusion h

/-- Claim C2 as amended: after masking, every object key matching the
sensitive set — at every nesting depth reachable through objects — holds the
mask token (if its value was a string), null (if it was a number, bool, null
or array), or an object, whose entries satisfy the same property recursively;
this holds for both bodies of the masked record.  In the header maps, every
matching key other than a case-insensitive `"authorization"` holds the mask
token, and an `"authorization"` key holds its first space-separated token
followed by the mask token. -/
theorem claim2_no_unmasked_field (F : List Str) (v : Json) (d : TreblleData)
    (k val : Str) :
    maskedOkV F (clear_value F v) = true ∧
    (∀ w, (mask_fields F d).request.body = some w → maskedOkV F w = true) ∧
    (∀ w, (mask_fields F d).response.body = some w → maskedOkV F w = true) ∧
    (F.contains k = true → lowerStr k ≠ authKey → clear_header_value F k val = maskStr) ∧
    (lowerStr k = authKey → clear_header_value F k val = auth_mask val) := by
  refine ⟨maskedOkV_clear_value F v, ?_, ?_, ?_, ?_⟩
  · intro w hw
    cases hb : d.request.body with
    | none => simp [mask_fields, hb] at hw
    | some u =>
      simp only [mask_fields, hb, Option.map_some', Option.some.injEq] at hw
      exact hw ▸ maskedOkV_clear_value F u
  · intro w hw
    cases hb : d.response.body with
    | none => simp [mask_fields, hb] at hw
    | some u =>
      simp only [mask_fields, hb, Option.map_some', Option.some.injEq] at hw
      exact hw ▸ maskedOkV_clear_value F u
  · intro hf ha
    have hf' : k ∈ F := by simpa using hf
    simp [clear_header_value, ha, hf']
  · intro ha
    simp [clear_header_value, ha]

/-- Claim C2 witness: the amended masking invariant evaluated on a concrete
body and a concrete sensitive header. -/
theorem claim2_no_unmasked_field_witness :
    maskedOkV [("pwd".toList)]
        (clear_value [("pwd".toList)]
          (Json.obj [(("pwd".toList), Json.str ("hunter2".toList))])) = true ∧
    clear_header_value [("pwd".toList)] ("pwd".toList) ("hunter2".toList) = maskStr :=
  ⟨(claim2_no_unmasked_field [("pwd".toList)]
      (Json.obj [(("pwd".toList), Json.str ("hunter2".toList))])
      ⟨⟨[], none⟩, ⟨[], none⟩⟩ ("pwd".toList) ("hunter2".toList)).1,
   (claim2_no_unmasked_field [("pwd".toList)]
      (Json.obj [(("pwd".toList), Json.str ("hunter2".toList))])
      ⟨⟨[], none⟩, ⟨[], none⟩⟩ ("pwd".toList) ("hunter2".toList)).2.2.2.1
      (by decide) (by decide)⟩

/-- Claim C3: masking is idempotent — re-running `mask_fields` on an already
masked record changes nothing, and the same holds for the underlying body
redactor `clear_value` and header redactor `clear_hashmap` (including the
authorization-header rule). -/
theorem claim3_mask_idempotent (F : List Str) (d : TreblleData) (v : Json)
    (hs : List (Str × Str)) :
    mask_fields F (mask_fields F d) = mask_fields F d ∧
    clear_value F (clear_value F v) = clear_value F v ∧
    clear_hashmap F (clear_hashmap F hs) = clear_hashmap F hs := by
  refine ⟨?_, clear_value_idem F v, clear_hashmap_idem F hs⟩
  obtain ⟨⟨rh, rb⟩, ⟨sh, sb⟩⟩ := d
  cases rb <;> cases sb <;>
    simp [mask_fields, clear_hashmap_idem, clear_value_idem]

/-- Claim C9: a request whose matched route pattern is in the configured
ignored-routes set is only forwarded to the inner service — no exchange
record is allocated and the dispatcher is never invoked. -/
theorem claim9_route_skip (ignored_routes : List Str) (match_pattern : Option Str)
    (h : ignored_routes.contains (match_pattern.getD []) = true) :
    middleware_call ignored_routes match_pattern = [MiddlewareStep.innerCall] ∧
    MiddlewareStep.newData ∉ middleware_call ignored_routes match_pattern ∧
    MiddlewareStep.dispatch ∉ middleware_call ignored_routes match_pattern ∧
    MiddlewareStep.maskData ∉ middleware_call ignored_routes match_pattern := by
  have h' : match_pattern.getD [] ∈ ignored_routes := by simpa using h
  have he : middleware_call ignored_routes match_pattern = [MiddlewareStep.innerCall] := by
    simp [middleware_call, h']
  refine ⟨he, ?_, ?_, ?_⟩ <;> rw [he] <;> decide

/-- Claim C9 witness: a concrete ignored route produces the forward-only
trace. -/
theorem claim9_route_skip_witness :
    middleware_call [("/health".toList)] (some ("/health".toList))
      = [MiddlewareStep.innerCall] :=
  (claim9_route_skip [("/health".toList)] (some ("/health".toList)) (by decide)).1

/-- Claim C10: `mask_fields` never adds or removes keys — every object of the
body tree keeps exactly its keys (in order) wherever the tree is traversed,
both header maps keep exactly their keys, and an entry whose key is outside
the sensitive set is unchanged provided its value contains no sensitive key
reachable through nested objects (for headers: provided the key is not a
case-insensitive `"authorization"`). -/
theorem claim10_mask_frame (F : List Str) (d : TreblleData) (v : Json)
    (l : List (Str × Json)) (hs : List (Str × Str)) (k val : Str) (w : Json) :
    sameKeysV v (clear_value F v) = true ∧
    (clear_map F l).map Prod.fst = l.map Prod.fst ∧
    (clear_hashmap F hs).map Prod.fst = hs.map Prod.fst ∧
    ((mask_fields F d).request.headers).map Prod.fst = d.request.headers.map Prod.fst ∧
    ((mask_fields F d).response.headers).map Prod.fst = d.response.headers.map Prod.fst ∧
    (∀ u, (mask_fields F d).request.body = some u →
      ∃ u0, d.request.body = some u0 ∧ sameKeysV u0 u = true) ∧
    (F.contains k = false → cleanV F w = true → clear_entry F k w = w) ∧
    (F.contains k = false → lowerStr k ≠ authKey → clear_header_value F k val = val) := by
  refine ⟨sameKeysV_clear_value F v, clear_map_keys F l, clear_hashmap_keys F hs,
    clear_hashmap_keys F _, clear_hashmap_keys F _, ?_, ?_, ?_⟩
  · intro u hu
    cases hb : d.request.body with
    | none => simp [mask_fields, hb] at hu
    | some u0 =>
      simp only [mask_fields, hb, Option.map_some', Option.some.injEq] at hu
      exact ⟨u0, rfl, hu ▸ sameKeysV_clear_value F u0⟩
  · exact fun hf hc => clear_entry_of_clean F k w hf hc
  · intro hf ha
    have hf' : ¬ k ∈ F := by simpa using hf
    simp [clear_header_value, ha, hf']

/-- Claim C10 witness: the frame property evaluated on a concrete record, a
concrete untouched body entry and a concrete untouched header. -/
theorem claim10_mask_frame_witness :
    clear_entry [("pwd".toList)] ("name".toList)
        (Json.obj [(("city".toList), Json.str ("Rome".toList))])
      = Json.obj [(("city".toList), Json.str ("Rome".toList))] ∧
    clear_header_value [("pwd".toList)] ("accept".toList) ("text/html".toList)
      = ("text/html".toList) :=
  ⟨(claim10_mask_frame [("pwd".toList)] ⟨⟨[], none⟩, ⟨[], none⟩⟩ Json.null [] []
      ("name".toList) ("text/html".toList)
      (Json.obj [(("city".toList), Json.str ("Rome".toList))])).2.2.2.2.2.2.1
      (by decide) (by decide),
   (claim10_mask_frame [("pwd".toList)] ⟨⟨[], none⟩, ⟨[], none⟩⟩ Json.null [] []
      ("accept".toList) ("text/html".toList)
      (Json.obj [(("city".toList), Json.str ("Rome".toList))])).2.2.2.2.2.2.2
      (by decide) (by decide)⟩

theorem takeWhile_of_no_space (v : Str) (h : ' ' ∉ v) :
    v.takeWhile (fun c => !(c == ' ')) = v := by
  induction v with
  | nil => rfl
  | cons c cs ih =>
    have hc : c ≠ ' ' := fun hc => h (hc ▸ List.mem_cons_self c cs)
    have h' : ' ' ∉ cs := fun hm => h (List.mem_cons_of_mem c hm)
    have hb : (c == ' ') = false := by simp [hc]
    rw [List.takeWhile_cons]
    simp only [hb, Bool.not_false, if_pos]
    rw [ih h']

/-- Claim C4: header redaction.  An entry whose key case-insensitively equals
`"authorization"` keeps the first space-separated token of its value and
replaces the remainder with the mask token (`"Bearer abc123"` becomes
`"Bearer ******"`, a value with no space becomes `"<original> ******"`, the
empty value becomes `" ******"` with an empty first token); any other entry
whose key is in the sensitive set has its whole value replaced by the mask
token; remaining entries are untouched. -/
theorem claim4_header_redaction (F : List Str) (k v : Str) :
    (lowerStr k = authKey → clear_header_value F k v
        = v.takeWhile (fun c => !(c == ' ')) ++ ' ' :: maskStr) ∧
    (lowerStr k = authKey → ' ' ∉ v → clear_header_value F k v = v ++ ' ' :: maskStr) ∧
    (lowerStr k ≠ authKey → F.contains k = true → clear_header_value F k v = maskStr) ∧
    (lowerStr k ≠ authKey → F.contains k = false → clear_header_value F k v = v) ∧
    clear_header_value F ("Authorization".toList) ("Bearer abc123".toList)
      = ("Bearer ******".toList) ∧
    clear_header_value F ("authorization".toList) [] = ' ' :: maskStr := by
  refine ⟨?_, ?_, ?_, ?_, ?_, ?_⟩
  · intro ha
    simp [clear_header_value, ha, auth_mask_eq_takeWhile]
  · intro ha hsp
    simp [clear_header_value, ha, auth_mask_eq_takeWhile, takeWhile_of_no_space v hsp]
  · intro ha hf
    have hf' : k ∈ F := by simpa using hf
    simp [clear_header_value, ha, hf']
  · intro ha hf
    have hf' : ¬ k ∈ F := by simpa using hf
    simp [clear_header_value, ha, hf']
  · have ha : lowerStr ("Authorization".toList) = authKey := by decide
    simp only [clear_header_value, ha, if_pos]
    decide
  · have ha : lowerStr ("authorization".toList) = authKey := by decide
    simp only [clear_header_value, ha, if_pos]
    decide

/-- Claim C4 witness: the header rules evaluated on a concrete sensitive
header and a concrete authorization header. -/
theorem claim4_header_redaction_witness :
    clear_header_value [("token".toList)] ("token".toList) ("abc".toList) = maskStr ∧
    clear_header_value [] ("Authorization".toList) ("Bearer abc123".toList)
      = ("Bearer ******".toList) :=
  ⟨(claim4_header_redaction [("token".toList)] ("token".toList) ("abc".toList)).2.2.1
      (by decide) (by decide),
   (claim4_header_redaction [] ("Authorization".toList) ("Bearer abc123".toList)).2.2.2.2.1⟩

/-- Claim C5: request-body capture.  With a content-type other than a
case-insensitive `"application/json"` the captured body is null regardless of
the bytes; with JSON content-type, empty bytes give null, bytes that parse
give the parsed value, bytes that fail to parse but decode as UTF-8 give
`{"request_as_a_string": <text>}`, and bytes that are not UTF-8 give
`{"request_as_raw_bytes": <repr>}`. -/
theorem claim5_request_body_decode (parse : List Nat → Option Json)
    (utf8 : List Nat → Option Str) (ct : Str) (bytes : List Nat) (v : Json) (s : Str) :
    (lowerStr ct ≠ appJson → get_request_body parse utf8 ct bytes = .null) ∧
    (lowerStr ct = appJson → get_request_body parse utf8 ct [] = .null) ∧
    (lowerStr ct = appJson → bytes ≠ [] → parse bytes = some v →
      get_request_body parse utf8 ct bytes = v) ∧
    (lowerStr ct = appJson → bytes ≠ [] → parse bytes = none → utf8 bytes = some s →
      get_request_body parse utf8 ct bytes
        = .obj [(("request_as_a_string".toList), .str s)]) ∧
    (lowerStr ct = appJson → bytes ≠ [] → parse bytes = none → utf8 bytes = none →
      get_request_body parse utf8 ct bytes
        = .obj [(("request_as_raw_bytes".toList), .str (bytesDebug bytes))]) := by
  refine ⟨?_, ?_, ?_, ?_, ?_⟩
  · intro hct
    simp [get_request_body, hct]
  · intro hct
    simp [get_request_body, hct]
  · intro hct hb hp
    simp [get_request_body, hct, hb, hp]
  · intro hct hb hp hu
    simp [get_request_body, hct, hb, hp, hu]
  · intro hct hb hp hu
    simp [get_request_body, hct, hb, hp, hu]

/-- Claim C5 witness: the decode policy evaluated with concrete decoders on a
mixed-case JSON content-type and on a non-JSON content-type. -/
theorem claim5_request_body_decode_witness :
    get_request_body (fun _ => some (Json.num 3)) (fun _ => none)
        ("Application/JSON".toList) [49] = Json.num 3 ∧
    get_request_body (fun _ => some (Json.num 3)) (fun _ => none)
        ("text/plain".toList) [49] = Json.null :=
  ⟨(claim5_request_body_decode (fun _ => some (Json.num 3)) (fun _ => none)
      ("Application/JSON".toList) [49] (Json.num 3) []).2.2.1
      (by decide) (by decide) rfl,
   (claim5_request_body_decode (fun _ => some (Json.num 3)) (fun _ => none)
      ("text/plain".toList) [49] (Json.num 3) []).1 (by decide)⟩

/-- Claim C6: response-body capture attempts a JSON decode with no
content-type gate; parsed JSON is kept as is, non-JSON UTF-8 text becomes a
plain string value equal to that text, non-UTF-8 bytes become the (always
non-empty) debug rendering of the bytes, and empty bytes give null. -/
theorem claim6_response_body_decode (parse : List Nat → Option Json)
    (utf8 : List Nat → Option Str) (bytes : List Nat) (v : Json) (s : Str) :
    get_response_body parse utf8 (some []) = .null ∧
    get_response_body parse utf8 none = .null ∧
    (bytes ≠ [] → parse bytes = some v →
      get_response_body parse utf8 (some bytes) = v) ∧
    (bytes ≠ [] → parse bytes = none → utf8 bytes = some s →
      get_response_body parse utf8 (some bytes) = .str s) ∧
    (bytes ≠ [] → parse bytes = none → utf8 bytes = none →
      get_response_body parse utf8 (some bytes) = .str (bytesDebug bytes) ∧
      bytesDebug bytes ≠ []) := by
  refine ⟨rfl, rfl, ?_, ?_, ?_⟩
  · intro hb hp
    simp [get_response_body, hb, hp]
  · intro hb hp hu
    simp [get_response_body, hb, hp, hu]
  · intro hb hp hu
    refine ⟨by simp [get_response_body, hb, hp, hu], by simp [bytesDebug]⟩

/-- Claim C6 witness: the response decode evaluated with concrete decoders on
parsed, text and empty inputs. -/
theorem claim6_response_body_decode_witness :
    get_response_body (fun _ => some (Json.jbool true)) (fun _ => none)
        (some [49]) = Json.jbool true ∧
    get_response_body (fun _ => none) (fun _ => some ("hi".toList))
        (some [104, 105]) = Json.str ("hi".toList) ∧
    get_response_body (fun _ => none) (fun _ => none) (some []) = Json.null :=
  ⟨(claim6_response_body_decode (fun _ => some (Json.jbool true)) (fun _ => none)
      [49] (Json.jbool true) []).2.2.1 (by decide) rfl,
   (claim6_response_body_decode (fun _ => none) (fun _ => some ("hi".toList))
      [104, 105] Json.null ("hi".toList)).2.2.2.1 (by decide) rfl rfl,
   (claim6_response_body_decode (fun _ => none) (fun _ => none)
      [] Json.null []).1⟩

theorem upToPat_single (c : Char) (s : Str) :
    upToPat [c] s = s.takeWhile (fun a => !(a == c)) := by
  induction s with
  | nil => rfl
  | cons d rest ih =>
    rw [List.takeWhile_cons]
    by_cases h : d = c
    · have hb : (c == d) = true := by simp [h]
      have hb' : (d == c) = true := by simp [h]
      simp [upToPat, leadsWith, hb, hb']
    · have hb : (c == d) = false := by simp [Ne.symm h]
      have hb' : (d == c) = false := by simp [h]
      simp [upToPat, leadsWith, hb, hb', ih]

theorem upToPat_leads (pat s : Str) : ∃ rest, s = upToPat pat s ++ rest := by
  induction s with
  | nil => exact ⟨[], rfl⟩
  | cons c cs ih =>
    by_cases h : leadsWith pat (c :: cs) = true
    · exact ⟨c :: cs, by simp [upToPat, h]⟩
    · obtain ⟨rest, hr⟩ := ih
      refine ⟨rest, ?_⟩
      simp only [upToPat, h, if_neg, Bool.not_eq_true]
      simp only [List.cons_append, List.cons.injEq, true_and]
      exact hr

theorem paren_not_mem_upToPat (s : Str) : '(' ∉ upToPat [ '(' ] s := by
  rw [upToPat_single]
  intro h
  have := List.mem_takeWhile_imp h
  simp at this

/-- Claim C8: the errors list is empty when the response carries no
framework-level error, and otherwise holds exactly one descriptor with
`source = "onError"`, `message` the error's full debug text, and `type` the
head of that text: the part before the first `'('`, further cut at the first
occurrence of the sequence `" \x7b\x7b"`, which is an initial segment of the
message containing no `'('`. -/
theorem claim8_error_descriptor (msg : Str) :
    get_errors none = [] ∧
    get_errors (some msg) = [ Json.obj
      [ (("source".toList), Json.str ("onError".toList)),
        (("message".toList), Json.str msg),
        (("type".toList), Json.str (errType msg)) ] ] ∧
    errType msg = upToPat (" \x7b\x7b".toList) (upToPat ([ '(' ]) msg) ∧
    upToPat ([ '(' ]) msg = msg.takeWhile (fun c => !(c == '(')) ∧
    (∃ rest, msg = upToPat ([ '(' ]) msg ++ rest) ∧
    '(' ∉ upToPat ([ '(' ]) msg :=
  ⟨rfl, rfl, rfl, upToPat_single '(' msg, upToPat_leads _ msg,
    paren_not_mem_upToPat msg⟩

theorem digCh_ne_dash (n : Nat) : digCh n ≠ '-' := by
  unfold digCh
  repeat' split
  all_goals decide

theorem digCh_ne_dot (n : Nat) : digCh n ≠ '.' := by
  unfold digCh
  repeat' split
  all_goals decide

theorem mem_natReprAux (fuel : Nat) :
    ∀ n c, c ∈ natReprAux fuel n → ∃ m, c = digCh m := by
  induction fuel with
  | zero => intro n c h; simp [natReprAux] at h
  | succ fuel ih =>
    intro n c h
    by_cases hn : n < 10
    · simp [natReprAux, hn] at h
      exact ⟨n, h⟩
    · simp only [natReprAux, hn, if_false, List.mem_append, List.mem_singleton] at h
      cases h with
      | inl h => exact ih (n / 10) c h
      | inr h => exact ⟨n % 10, h⟩

theorem mem_natRepr (n : Nat) (c : Char) (h : c ∈ natRepr n) : ∃ m, c = digCh m :=
  mem_natReprAux (n + 1) n c h

theorem natRepr_ne_nil (n : Nat) : natRepr n ≠ [] := by
  unfold natRepr natReprAux
  by_cases hn : n < 10 <;> simp [hn]

theorem natReprAux_length (fuel : Nat) :
    ∀ n k, 0 < k → n < 10 ^ k → (natReprAux fuel n).length ≤ k := by
  induction fuel with
  | zero => intro n k _ _; simp [natReprAux]
  | succ fuel ih =>
    intro n k hk hn
    by_cases h : n < 10
    · simp only [natReprAux, h, if_true, List.length_singleton]
      omega
    · have hk2 : 2 ≤ k := by
        rcases Nat.lt_or_ge k 2 with hlt | hge
        · have hk1 : k = 1 := by omega
          rw [hk1, pow_one] at hn
          omega
        · exact hge
      have hpow : 10 ^ (k - 1) * 10 = 10 ^ k := by
        rw [← pow_succ]
        congr 1
        omega
      have hdiv : n / 10 < 10 ^ (k - 1) := by
        rw [Nat.div_lt_iff_lt_mul (by norm_num)]
        rw [hpow]
        exact hn
      have hrec := ih (n / 10) (k - 1) (by omega) hdiv
      simp only [natReprAux, h, if_false, List.length_append, List.length_singleton]
      omega

theorem natRepr_length_le_five (n : Nat) (h : n < 100000) : (natRepr n).length ≤ 5 :=
  natReprAux_length (n + 1) n 5 (by norm_num) (by norm_num; omega)

theorem padFive_length (s : Str) (h : s.length ≤ 5) : (padFive s).length = 5 := by
  simp only [padFive, List.length_append, List.length_replicate]
  omega

theorem mem_padFive (s : Str) (c : Char) (h : c ∈ padFive s) : c = '0' ∨ c ∈ s := by
  simp only [padFive, List.mem_append] at h
  cases h with
  | inl h => exact Or.inl (List.eq_of_mem_replicate h)
  | inr h => exact Or.inr h

theorem mem_fiveDecRender (k : Nat) (c : Char) (h : c ∈ fiveDecRender k) :
    c = '.' ∨ c = '0' ∨ ∃ m, c = digCh m := by
  simp only [fiveDecRender, List.mem_append, List.mem_cons] at h
  rcases h with h | h | h
  · exact Or.inr (Or.inr (mem_natRepr _ c h))
  · exact Or.inl h
  · rcases mem_padFive _ c h with h0 | hm
    · exact Or.inr (Or.inl h0)
    · exact Or.inr (Or.inr (mem_natRepr _ c hm))

theorem get_seconds_some (now s e : Instant) :
    get_seconds_with_micro now s (some e)
      = if (microsOf e - microsOf s) < 0
        then '-' :: fiveDecRender (-(microsOf e - microsOf s)).toNat
        else fiveDecRender (microsOf e - microsOf s).toNat := rfl

/-- Claim C7: for timestamps with `start <= end` the elapsed-time string
carries no minus sign; the elapsed value (rounded to the fifth decimal) is
monotone in the end timestamp; the output consists of a non-empty integer
part, one dot and exactly five decimal digits; and a 2000-microsecond gap
prints `"0.00200"`, a 200-millisecond gap prints `"0.20000"`, and a
500-second gap prints `"500.00000"`. -/
theorem claim7_elapsed_time (now s e e1 e2 : Instant) :
    (microsOf s ≤ microsOf e → '-' ∉ get_seconds_with_micro now s (some e)) ∧
    (microsOf s ≤ microsOf e → get_seconds_with_micro now s (some e)
      = fiveDecRender (microsOf e - microsOf s).toNat) ∧
    (microsOf e1 ≤ microsOf e2 →
      roundTen (microsOf e1 - microsOf s).toNat
        ≤ roundTen (microsOf e2 - microsOf s).toNat) ∧
    (microsOf s ≤ microsOf e → ∃ a b,
      get_seconds_with_micro now s (some e) = a ++ '.' :: b ∧ b.length = 5 ∧
      '.' ∉ a ∧ '.' ∉ b ∧ a ≠ []) ∧
    (microsOf e - microsOf s = 2000 →
      get_seconds_with_micro now s (some e) = ("0.00200".toList)) ∧
    (microsOf e - microsOf s = 200000 →
      get_seconds_with_micro now s (some e) = ("0.20000".toList)) ∧
    (microsOf e - microsOf s = 500000000 →
      get_seconds_with_micro now s (some e) = ("500.00000".toList)) := by
  have hpos : ∀ h : microsOf s ≤ microsOf e, get_seconds_with_micro now s (some e)
      = fiveDecRender (microsOf e - microsOf s).toNat := by
    intro h
    rw [get_seconds_some, if_neg (by omega)]
  refine ⟨?_, hpos, ?_, ?_, ?_, ?_, ?_⟩
  · intro h hmem
    rw [hpos h] at hmem
    rcases mem_fiveDecRender _ '-' hmem with hc | hc | ⟨m, hc⟩
    · exact absurd hc (by decide)
    · exact absurd hc (by decide)
    · exact absurd hc.symm (digCh_ne_dash m)
  · intro h12
    exact Nat.div_le_div_right (Nat.add_le_add_right
      (Int.toNat_le_toNat (by omega)) 5)
  · intro h
    refine ⟨natRepr (roundTen (microsOf e - microsOf s).toNat / 100000),
      padFive (natRepr (roundTen (microsOf e - microsOf s).toNat % 100000)),
      hpos h, ?_, ?_, ?_, natRepr_ne_nil _⟩
    · exact padFive_length _ (natRepr_length_le_five _ (Nat.mod_lt _ (by norm_num)))
    · intro hmem
      rcases mem_natRepr _ '.' hmem with ⟨m, hc⟩
      exact absurd hc.symm (digCh_ne_dot m)
    · intro hmem
      rcases mem_padFive _ '.' hmem with hc | hc
      · exact absurd hc (by decide)
      · rcases mem_natRepr _ '.' hc with ⟨m, hm⟩
        exact absurd hm.symm (digCh_ne_dot m)
  · intro h
    rw [get_seconds_some, h]
    decide
  · intro h
    rw [get_seconds_some, h]
    decide
  · intro h
    rw [get_seconds_some, h]
    decide

/-- Claim C7 witness: the elapsed-time format evaluated at concrete
timestamps realising the three claimed gaps and the five-decimal shape. -/
theorem claim7_elapsed_time_witness :
    get_seconds_with_micro ⟨0, 0⟩ ⟨10, 500⟩ (some ⟨10, 2500⟩) = ("0.00200".toList) ∧
    get_seconds_with_micro ⟨0, 0⟩ ⟨10, 500⟩ (some ⟨10, 200500⟩) = ("0.20000".toList) ∧
    get_seconds_with_micro ⟨0, 0⟩ ⟨10, 500⟩ (some ⟨510, 500⟩) = ("500.00000".toList) ∧
    '-' ∉ get_seconds_with_micro ⟨0, 0⟩ ⟨10, 500⟩ (some ⟨10, 2500⟩) ∧
    roundTen (microsOf ⟨10, 2500⟩ - microsOf ⟨10, 500⟩).toNat
      ≤ roundTen (microsOf ⟨10, 200500⟩ - microsOf ⟨10, 500⟩).toNat :=
  ⟨(claim7_elapsed_time ⟨0, 0⟩ ⟨10, 500⟩ ⟨10, 2500⟩ ⟨0, 0⟩ ⟨0, 0⟩).2.2.2.2.1 (by decide),
   (claim7_elapsed_time ⟨0, 0⟩ ⟨10, 500⟩ ⟨10, 200500⟩ ⟨0, 0⟩ ⟨0, 0⟩).2.2.2.2.2.1 (by decide),
   (claim7_elapsed_time ⟨0, 0⟩ ⟨10, 500⟩ ⟨510, 500⟩ ⟨0, 0⟩ ⟨0, 0⟩).2.2.2.2.2.2 (by decide),
   (claim7_elapsed_time ⟨0, 0⟩ ⟨10, 500⟩ ⟨10, 2500⟩ ⟨0, 0⟩ ⟨0, 0⟩).1 (by decide),
   (claim7_elapsed_time ⟨0, 0⟩ ⟨10, 500⟩ ⟨0, 0⟩ ⟨10, 2500⟩ ⟨10, 200500⟩).2.2.1 (by decide)⟩

/-- Claim C3 witness: idempotence evaluated on a concrete record holding a
sensitive body field, a sensitive header and an authorization header. -/
theorem claim3_mask_idempotent_witness :
    mask_fields [("pwd".toList)]
        (mask_fields [("pwd".toList)]
          ⟨⟨[(("authorization".toList), ("Bearer tok".toList))],
            some (Json.obj [(("pwd".toList), Json.str ("hunter2".toList))])⟩,
           ⟨[(("pwd".toList), ("leak".toList))], none⟩⟩)
      = mask_fields [("pwd".toList)]
          ⟨⟨[(("authorization".toList), ("Bearer tok".toList))],
            some (Json.obj [(("pwd".toList), Json.str ("hunter2".toList))])⟩,
           ⟨[(("pwd".toList), ("leak".toList))], none⟩⟩ :=
  (claim3_mask_idempotent [("pwd".toList)]
    ⟨⟨[(("authorization".toList), ("Bearer tok".toList))],
      some (Json.obj [(("pwd".toList), Json.str ("hunter2".toList))])⟩,
     ⟨[(("pwd".toList), ("leak".toList))], none⟩⟩ Json.null []).1

/-- Claim C8 witness: the error descriptor evaluated on a concrete debug
message, whose head token before the parenthesis becomes the type. -/
theorem claim8_error_descriptor_witness :
    get_errors (some ("BlockingError(Canceled)".toList)) = [ Json.obj
      [ (("source".toList), Json.str ("onError".toList)),
        (("message".toList), Json.str ("BlockingError(Canceled)".toList)),
        (("type".toList), Json.str (errType ("BlockingError(Canceled)".toList))) ] ] ∧
    errType ("BlockingError(Canceled)".toList) = ("BlockingError".toList) :=
  ⟨(claim8_error_descriptor ("BlockingError(Canceled)".toList)).2.1, by decide⟩
